import Mathlib

/-!
# Verification of the context-generator document pipeline

Shallow embedding of the document normalization and hierarchical assembly
pipeline of the `context-generator-mcp` repository:

* `llmstxtFormatter.ts` (`LlmsTxtFormatterService`): hierarchy building,
  section conversion, truncation/summarization, rendering;
* `contentExtractor.ts` (`ContentExtractorService`): title extraction and
  content validity checking;
* the platform detector service (`PlatformDetectorService`).

Modelling conventions:

* JavaScript strings are modelled as Lean `String` / `List Char`; the inputs
  considered are BMP text, where JS UTF-16 length and Lean character count
  agree.
* JS truthiness of an optional string field (`result.content`,
  `result.title`, `section.sourceUrl`) is modelled as `≠ ""`; a missing field
  and the empty string behave identically in every use the code makes.
* `new URL(u)` is modelled by a parser for `scheme://host/path` URLs (no
  query/fragment/userinfo); a string without a `://` separator, scheme or
  host is `none`, matching the `catch` branches of the source.  All concrete
  inputs used below are of that plain shape.
* Regular expressions are modelled by dedicated matchers that implement
  exactly the patterns appearing in the source (documented at each matcher).
* `new Date().toISOString()` is modelled as an explicit parameter `now`
  threaded into the formatting entry points.
-/

/-! ## Character and string utilities -/

/-- JS `\w` character class (`[A-Za-z0-9_]`, no `u` flag). -/
def isWordChar (c : Char) : Bool :=
  (decide ('a' ≤ c) && decide (c ≤ 'z')) ||
  (decide ('A' ≤ c) && decide (c ≤ 'Z')) ||
  (decide ('0' ≤ c) && decide (c ≤ '9')) ||
  decide (c = '_')

/-- `String.prototype.trim()`: drop whitespace from both ends. -/
def trimChars (l : List Char) : List Char :=
  ((l.dropWhile Char.isWhitespace).reverse.dropWhile Char.isWhitespace).reverse

/-- Collapse every maximal run of characters satisfying `p` into the single
character `repl`; the `go` worker tracks whether the previous character was
part of a run.  `collapseRuns Char.isWhitespace ' '` is JS
`replace(/\s+/g, ' ')`. -/
def collapseRunsGo (p : Char → Bool) (repl : Char) : Bool → List Char → List Char
  | _, [] => []
  | prevRun, c :: rest =>
    if p c then
      (if prevRun then [] else [repl]) ++ collapseRunsGo p repl true rest
    else
      c :: collapseRunsGo p repl false rest

def collapseRuns (p : Char → Bool) (repl : Char) (l : List Char) : List Char :=
  collapseRunsGo p repl false l

/-- JS `String.prototype.split(sep)` for a single-character separator:
every separator occurrence splits, empty pieces are kept. -/
def splitOnCharGo (sep : Char) (cur : List Char) : List Char → List (List Char)
  | [] => [cur.reverse]
  | c :: rest =>
    if c = sep then cur.reverse :: splitOnCharGo sep [] rest
    else splitOnCharGo sep (c :: cur) rest

def splitOnChar (sep : Char) (l : List Char) : List (List Char) :=
  splitOnCharGo sep [] l

/-- JS `String.prototype.includes`. -/
def containsSub (hay sub : List Char) : Bool :=
  hay.tails.any (fun t => sub.isPrefixOf t)

/-- Index of the last `' '` in the list (JS `lastIndexOf(' ')`), `none` when
there is no space (JS `-1`). -/
def lastIndexOfSpace : List Char → Option Nat
  | [] => none
  | c :: rest =>
    match lastIndexOfSpace rest with
    | some i => some (i + 1)
    | none => if c = ' ' then some 0 else none

/-- `lines.join('\n')`. -/
def joinLines : List String → String
  | [] => ""
  | [l] => l
  | l :: l₂ :: rest => l ++ "\n" ++ joinLines (l₂ :: rest)

def ofChars (l : List Char) : String := String.mk l

/-! ## URL model

`new URL(u)` restricted to the hierarchical `scheme://host/path` shape: the
scheme (before the first `://`) and the host must be nonempty; the pathname
is everything from the first `/` after the host (`"/"` when absent); the
hostname is the host with any `:port` suffix removed.  A string that does not
fit returns `none`, matching the source's `catch` branches. -/

def afterSchemeSep : List Char → Option (List Char)
  | ':' :: '/' :: '/' :: rest => some rest
  | _ :: rest => afterSchemeSep rest
  | [] => none

def pathnameChars (l : List Char) : Option (List Char) :=
  match l with
  | [] => none
  | ':' :: _ => none
  | _ :: rest =>
    match afterSchemeSep rest with
    | none => none
    | some hp =>
      let host := hp.takeWhile (fun c => c ≠ '/')
      if host.isEmpty then none
      else
        let path := hp.drop host.length
        some (if path.isEmpty then ['/'] else path)

def hostnameChars (l : List Char) : Option (List Char) :=
  match l with
  | [] => none
  | ':' :: _ => none
  | _ :: rest =>
    match afterSchemeSep rest with
    | none => none
    | some hp =>
      let host := hp.takeWhile (fun c => c ≠ '/')
      if host.isEmpty then none else some (host.takeWhile (fun c => c ≠ ':'))

/-- `urlObj.pathname.split('/').filter(s => s.length > 0 && s !== 'index.html')`
(from `determineDocumentLevel`). -/
def pathSegmentsOf (p : List Char) : List (List Char) :=
  (splitOnChar '/' p).filter (fun s => decide (s ≠ [] ∧ s ≠ "index.html".data))

/-- `new URL(u).pathname.split('/').filter(s => s.length > 0)` (from
`calculateUrlSimilarity` and `extractTitleFromUrl`). -/
def rawSegmentsOf (p : List Char) : List (List Char) :=
  (splitOnChar '/' p).filter (fun s => decide (s ≠ []))

/-! ## Data model (`types/index.ts`)

Only the fields the verified functions read are carried.  The optional
string fields `title` and `content` of `CrawlResult` are `String`s with `""`
standing for a missing value (JS truthiness). -/

structure CrawlResult where
  success : Bool
  url : String
  title : String
  content : String
deriving DecidableEq

/-- `format: 'summary' | 'full' | 'both'`. -/
inductive FormatMode where
  | summary
  | full
  | both
deriving DecidableEq

def FormatMode.render : FormatMode → String
  | .summary => "summary"
  | .full => "full"
  | .both => "both"

structure LlmsTxtOptions where
  format : FormatMode
  includeSourceUrls : Bool
  sectionHeaders : Bool
  maxSectionLength : Option Nat
deriving DecidableEq

inductive LlmsTxtSection where
  | mk (title content sourceUrl : String) (subsections : List LlmsTxtSection)

def LlmsTxtSection.title : LlmsTxtSection → String
  | .mk t _ _ _ => t

def LlmsTxtSection.content : LlmsTxtSection → String
  | .mk _ c _ _ => c

def LlmsTxtSection.sourceUrl : LlmsTxtSection → String
  | .mk _ _ u _ => u

def LlmsTxtSection.subsections : LlmsTxtSection → List LlmsTxtSection
  | .mk _ _ _ s => s

structure LlmsTxtMetadata where
  generatedAt : String
  sourceCount : Nat
  totalLength : Nat
  format : FormatMode
deriving DecidableEq

structure GeneratedLlmsTxt where
  content : String
  sections : List LlmsTxtSection
  metadata : LlmsTxtMetadata

/-- The flat per-document node of `buildDocumentHierarchy`'s `urlMap`
(`DocumentHierarchy` before any child is attached; children are tracked
separately as edges, mirroring the `parent.children.push` operations). -/
structure DocNode where
  title : String
  url : String
  content : String
  level : Nat
deriving DecidableEq

/-- The materialized `DocumentHierarchy` tree. -/
inductive DocumentHierarchy where
  | mk (title url content : String) (level : Nat)
      (children : List DocumentHierarchy)

def DocumentHierarchy.title : DocumentHierarchy → String
  | .mk t _ _ _ _ => t

def DocumentHierarchy.url : DocumentHierarchy → String
  | .mk _ u _ _ _ => u

def DocumentHierarchy.content : DocumentHierarchy → String
  | .mk _ _ c _ _ => c

def DocumentHierarchy.level : DocumentHierarchy → Nat
  | .mk _ _ _ l _ => l

def DocumentHierarchy.children : DocumentHierarchy → List DocumentHierarchy
  | .mk _ _ _ _ ch => ch

/-! ## `llmstxtFormatter.ts`: per-string helpers -/

/-- `sanitizeTitle`:
`title.replace(/\s+/g, ' ').replace(/[\r\n\t]/g, ' ').trim().substring(0, 200)`. -/
def sanitizeTitle (title : String) : String :=
  ofChars
    ((trimChars
      ((collapseRuns Char.isWhitespace ' ' title.data).map
        (fun c => if c = '\r' ∨ c = '\n' ∨ c = '\t' then ' ' else c))).take 200)

/-- `cleanDocumentContent`: collapse whitespace, strip zero-width characters
(`​`-`‍`, `﻿`), trim. -/
def isZeroWidth (c : Char) : Bool :=
  decide (c = '​') || decide (c = '‌') ||
  decide (c = '‍') || decide (c = '﻿')

def cleanDocumentContent (content : String) : String :=
  ofChars
    (trimChars
      ((collapseRuns Char.isWhitespace ' ' content.data).filter
        (fun c => !isZeroWidth c)))

/-- `determineDocumentLevel` (the unused `allResults` parameter of the source
is omitted).  Malformed URLs hit the `catch` branch and default to level 2. -/
def determineDocumentLevel (url : String) : Nat :=
  match pathnameChars url.data with
  | none => 2
  | some p =>
    let segs := pathSegmentsOf p
    if segs.length ≤ 1 ∨ segs.any (fun s => decide
        ((s.map Char.toLower) ∈ ["index".data, "home".data, "introduction".data, "overview".data])) then
      1
    else if segs.any (fun s => decide
        ((s.map Char.toLower) ∈ ["getting-started".data, "quickstart".data, "setup".data, "installation".data])) then
      1
    else if segs.any (fun s => decide
        ((s.map Char.toLower) ∈ ["api".data, "reference".data, "methods".data])) then
      min segs.length 4
    else
      min segs.length 3

/-- `replace(/\/$/, '')`: remove one trailing slash. -/
def stripTrailingSlash (l : List Char) : List Char :=
  if l.getLast? = some '/' then l.dropLast else l

/-- `isLikelyParent`: the child pathname must start with the parent pathname
(trailing slashes removed). -/
def isLikelyParent (parentUrl childUrl : String) : Bool :=
  match pathnameChars parentUrl.data, pathnameChars childUrl.data with
  | some pp, some cp =>
    let np := stripTrailingSlash pp
    let nc := stripTrailingSlash cp
    (np ++ ['/']).isPrefixOf nc || np.isPrefixOf nc
  | _, _ => false

/-- Shared leading path segments of the two pathnames. -/
def commonLeadCount : List (List Char) → List (List Char) → Nat
  | a :: as, b :: bs => if a = b then commonLeadCount as bs + 1 else 0
  | _, _ => 0

/-- `calculateUrlSimilarity`: `commonSegments / max(len1, len2, 1)` as an
exact rational (the JS double division preserves every comparison the
formatter makes at realistic path lengths). -/
def calculateUrlSimilarity (url1 url2 : String) : ℚ :=
  match pathnameChars url1.data, pathnameChars url2.data with
  | some p1, some p2 =>
    let s1 := rawSegmentsOf p1
    let s2 := rawSegmentsOf p2
    (commonLeadCount s1 s2 : ℚ) / (max (max s1.length s2.length) 1 : ℚ)
  | _, _ => 0

/-- `getDocumentPriority` (lower = higher priority). -/
def getDocumentPriority (title url : String) : Nat :=
  let lowerTitle := title.data.map Char.toLower
  let lowerUrl := url.data.map Char.toLower
  if containsSub lowerTitle "introduction".data ∨ containsSub lowerTitle "overview".data then 1
  else if containsSub lowerTitle "getting started".data ∨ containsSub lowerTitle "quickstart".data then 2
  else if containsSub lowerTitle "installation".data ∨ containsSub lowerTitle "setup".data then 3
  else if containsSub lowerTitle "tutorial".data ∨ containsSub lowerTitle "guide".data then 4
  else if containsSub lowerUrl "getting-started".data ∨ containsSub lowerUrl "quickstart".data then 2
  else if containsSub lowerUrl "installation".data ∨ containsSub lowerUrl "setup".data then 3
  else 10

/-- `truncateContent`.  `content.substring(0, maxLength - 3)` clamps at 0
exactly as `Nat` subtraction does; the float test
`lastSpaceIndex > maxLength * 0.8` is the rational test `5·i > 4·maxLength`
(exact for the integer ranges involved). -/
def truncateContent (content : String) (maxLength : Nat) : String :=
  if content.length ≤ maxLength then content
  else
    let truncated := content.data.take (maxLength - 3)
    match lastIndexOfSpace truncated with
    | some i =>
      if 4 * maxLength < 5 * i then ofChars (truncated.take i ++ "...".data)
      else ofChars (truncated ++ "...".data)
    | none => ofChars (truncated ++ "...".data)

/-- `content.split(/[.!?]+/)`: split on maximal runs of sentence
terminators. -/
def isSentenceEnd (c : Char) : Bool :=
  decide (c = '.') || decide (c = '!') || decide (c = '?')

def splitSentencesGo (prevEnd : Bool) (cur : List Char) :
    List Char → List (List Char)
  | [] => [cur.reverse]
  | c :: rest =>
    if isSentenceEnd c then
      if prevEnd then splitSentencesGo true [] rest
      else cur.reverse :: splitSentencesGo true [] rest
    else
      splitSentencesGo false (c :: cur) rest

def splitSentences (l : List Char) : List (List Char) :=
  splitSentencesGo false [] l

/-- The accumulation loop of `createSummaryContent`: extend the summary by
`sentence + '. '` until the next extension would pass `maxLength`. -/
def accumulateSentences (maxLength : Nat) (summary : List Char) :
    List (List Char) → List Char
  | [] => summary
  | s :: rest =>
    let pot := summary ++ s ++ ['.', ' ']
    if maxLength < pot.length then summary
    else accumulateSentences maxLength pot rest

/-- `createSummaryContent`. -/
def createSummaryContent (content : String) (maxLength : Nat) : String :=
  if content.length ≤ maxLength then content
  else
    let summary := accumulateSentences maxLength [] (splitSentences content.data)
    let summary :=
      if (trimChars summary).length = 0 then
        content.data.take (maxLength - 3) ++ "...".data
      else summary
    ofChars (trimChars summary)

/-- `slugify`: lowercase, drop `[^\w\s-]`, whitespace runs to `-`, collapse
`-` runs, trim, strip leading/trailing `-`. -/
def slugify (text : String) : String :=
  let s := text.data.map Char.toLower
  let s := s.filter (fun c => isWordChar c || c.isWhitespace || decide (c = '-'))
  let s := (collapseRuns Char.isWhitespace ' ' s).map (fun c => if c = ' ' then '-' else c)
  let s := collapseRuns (fun c => decide (c = '-')) '-' s
  let s := trimChars s
  let s := (s.dropWhile (fun c => c = '-')).reverse.dropWhile (fun c => c = '-')
  ofChars s.reverse

/-! ## `buildDocumentHierarchy`

The imperative construction is modelled in two layers that a reviewer can
trace back to the two passes of the source:

* pass 1 (`urlMap.set`, level-1 pushes): an insertion-ordered association
  list `pass1Map` (a `Map` keyed by URL: setting an existing key updates it
  in place, a new key is appended) plus the list `pass1Roots` of level-1
  nodes pushed to `hierarchy`;
* pass 2 (`parent.children.push(docNode)` / root pushes): the list
  `pass2Edges` of (parent, child) attachments in execution order, plus
  `pass2ExtraRoots` for documents without a suitable parent.

The forest is then materialized from roots and edges. -/

def mkNode (r : CrawlResult) : DocNode :=
  { title := sanitizeTitle r.title
    url := r.url
    content := cleanDocumentContent r.content
    level := determineDocumentLevel r.url }

/-- `Map.set`: update in place when the key exists, append otherwise. -/
def mapSet (m : List (String × DocNode)) (k : String) (v : DocNode) :
    List (String × DocNode) :=
  if m.any (fun p => p.1 = k) then
    m.map (fun p => if p.1 = k then (k, v) else p)
  else m ++ [(k, v)]

/-- `Map.get`. -/
def lookupMap (m : List (String × DocNode)) (k : String) : Option DocNode :=
  (m.find? (fun p => p.1 = k)).map (fun p => p.2)

/-- First-pass guard: `if (!result.content || !result.title) continue`. -/
def hasContentAndTitle (r : CrawlResult) : Bool :=
  decide (r.content ≠ "") && decide (r.title ≠ "")

def pass1MapGo (m : List (String × DocNode)) :
    List CrawlResult → List (String × DocNode)
  | [] => m
  | r :: rest =>
    pass1MapGo (if hasContentAndTitle r then mapSet m r.url (mkNode r) else m) rest

def pass1Map (results : List CrawlResult) : List (String × DocNode) :=
  pass1MapGo [] results

/-- Level-1 nodes pushed to `hierarchy` during the first pass. -/
def pass1Roots : List CrawlResult → List DocNode
  | [] => []
  | r :: rest =>
    (if hasContentAndTitle r ∧ (mkNode r).level = 1 then [mkNode r] else []) ++
      pass1Roots rest

/-- The candidate comparator of `findBestParent`: candidate `a` sorts
strictly before candidate `b` when its level is closer to `docNode.level - 1`,
or at equal distance when its URL similarity to `docNode` is strictly
higher. -/
def betterParent (docNode a b : DocNode) : Bool :=
  let da := ((a.level : Int) - ((docNode.level : Int) - 1)).natAbs
  let db := ((b.level : Int) - ((docNode.level : Int) - 1)).natAbs
  if da ≠ db then decide (da < db)
  else decide (calculateUrlSimilarity b.url docNode.url <
    calculateUrlSimilarity a.url docNode.url)

/-- Head of the stably sorted candidate list = the earliest candidate that no
later candidate strictly beats. -/
def pickFirstMinGo (docNode best : DocNode) : List DocNode → DocNode
  | [] => best
  | n :: rest =>
    pickFirstMinGo docNode (if betterParent docNode n best then n else best) rest

def findBestParent (docNode : DocNode) (allNodes : List DocNode) : Option DocNode :=
  let candidates := allNodes.filter (fun n =>
    decide (n.level < docNode.level) && decide (n.url ≠ docNode.url) &&
      isLikelyParent n.url docNode.url)
  match candidates with
  | [] => none
  | c :: rest => some (pickFirstMinGo docNode c rest)

/-- The single `parent.children.push` / root push the second pass performs
for one crawl result. -/
def edgeOf (m : List (String × DocNode)) (vals : List DocNode)
    (r : CrawlResult) : List (DocNode × DocNode) :=
  match lookupMap m r.url with
  | none => []
  | some n =>
    if n.level = 1 then []
    else
      match findBestParent n vals with
      | some p => [(p, n)]
      | none => []

def rootOf (m : List (String × DocNode)) (vals : List DocNode)
    (r : CrawlResult) : List DocNode :=
  match lookupMap m r.url with
  | none => []
  | some n =>
    if n.level = 1 then []
    else
      match findBestParent n vals with
      | some _ => []
      | none => [n]

def pass2EdgesGo (m : List (String × DocNode)) (vals : List DocNode) :
    List CrawlResult → List (DocNode × DocNode)
  | [] => []
  | r :: rest => edgeOf m vals r ++ pass2EdgesGo m vals rest

def pass2RootsGo (m : List (String × DocNode)) (vals : List DocNode) :
    List CrawlResult → List DocNode
  | [] => []
  | r :: rest => rootOf m vals r ++ pass2RootsGo m vals rest

/-- All `parent.children.push(docNode)` attachments, in execution order. -/
def pass2Edges (results : List CrawlResult) : List (DocNode × DocNode) :=
  let m := pass1Map results
  pass2EdgesGo m (m.map (fun p => p.2)) results

def pass2ExtraRoots (results : List CrawlResult) : List DocNode :=
  let m := pass1Map results
  pass2RootsGo m (m.map (fun p => p.2)) results

/-- The children attached to the map node with URL `u`, in attachment
order. -/
def childrenOfUrl (results : List CrawlResult) (u : String) : List DocNode :=
  (pass2Edges results).filterMap
    (fun e => if e.1.url = u then some e.2 else none)

/-- Materialize the tree below a node.  Levels lie in `[1, 4]` and strictly
increase along every attachment, so parent chains have length at most 4 and
fuel 4 reproduces the full tree. -/
def buildTreeFuel (results : List CrawlResult) : Nat → DocNode → DocumentHierarchy
  | 0, n => .mk n.title n.url n.content n.level []
  | fuel + 1, n =>
    .mk n.title n.url n.content n.level
      ((childrenOfUrl results n.url).map (buildTreeFuel results fuel))

/-- `getDocumentPriority`-then-title comparator of `sortHierarchy`;
`localeCompare` is modelled as code-point comparison, which coincides with
the ICU order on the concrete titles considered here. -/
def charListLt : List Char → List Char → Bool
  | [], [] => false
  | [], _ :: _ => true
  | _ :: _, [] => false
  | a :: as, b :: bs => decide (a < b) || (decide (a = b) && charListLt as bs)

def hierLt (a b : DocumentHierarchy) : Bool :=
  let pa := getDocumentPriority a.title a.url
  let pb := getDocumentPriority b.title b.url
  if pa ≠ pb then decide (pa < pb) else charListLt a.title.data b.title.data

/-- Stable insertion used to model `Array.prototype.sort` (a stable sort):
`x` goes before the first element that does not sort strictly before it. -/
def hierInsert (x : DocumentHierarchy) : List DocumentHierarchy → List DocumentHierarchy
  | [] => [x]
  | y :: ys => if hierLt y x then y :: hierInsert x ys else x :: y :: ys

mutual

def sortTree : DocumentHierarchy → DocumentHierarchy
  | .mk t u c l ch => .mk t u c l (sortForest ch)

def sortForest : List DocumentHierarchy → List DocumentHierarchy
  | [] => []
  | x :: xs => hierInsert (sortTree x) (sortForest xs)

end

/-- `buildDocumentHierarchy`: level-1 roots (pass 1), then unparented
documents (pass 2), children attached by URL, everything sorted
recursively. -/
def buildDocumentHierarchy (results : List CrawlResult) : List DocumentHierarchy :=
  sortForest
    ((pass1Roots results ++ pass2ExtraRoots results).map (buildTreeFuel results 4))

/-! ## Section conversion and rendering -/

/-- The content processing of `convertDocumentToSection`: summary mode uses
`createSummaryContent` with `maxSectionLength || 500` (so an absent — or `0`,
falsy — option becomes 500); otherwise content is truncated only when
`maxSectionLength` is truthy and exceeded. -/
def processContent (content : String) (options : LlmsTxtOptions) : String :=
  if options.format = FormatMode.summary then
    createSummaryContent content
      (match options.maxSectionLength with
        | none => 500
        | some 0 => 500
        | some m => m)
  else
    match options.maxSectionLength with
    | none => content
    | some 0 => content
    | some m =>
      if m < content.length then truncateContent content m else content

mutual

/-- `convertDocumentToSection`: skip documents whose trimmed content is
empty, process content, convert children recursively. -/
def convertDocumentToSection (options : LlmsTxtOptions) :
    DocumentHierarchy → Option LlmsTxtSection
  | .mk t u c _ ch =>
    if trimChars c.data = [] then none
    else
      some (.mk t (processContent c options) u (convertChildren options ch))

def convertChildren (options : LlmsTxtOptions) :
    List DocumentHierarchy → List LlmsTxtSection
  | [] => []
  | d :: ds =>
    match convertDocumentToSection options d with
    | some s => s :: convertChildren options ds
    | none => convertChildren options ds

end

/-- `convertToSections`. -/
def convertToSections (hierarchy : List DocumentHierarchy)
    (options : LlmsTxtOptions) : List LlmsTxtSection :=
  convertChildren options hierarchy

/-- `'#'.repeat(level)` / `'  '.repeat(level - 1)`. -/
def charRepeat (c : Char) (n : Nat) : String := ofChars (List.replicate n c)

def indentRepeat (n : Nat) : String := ofChars (List.flatten (List.replicate n [' ', ' ']))

/-- `generateTableOfContents`: one bullet per section (`-` at level 1, `*`
below), linking to the slugified title; subsections one level deeper. -/
def generateTableOfContents (level : Nat) : List LlmsTxtSection → List String
  | [] => []
  | .mk t _ _ subs :: rest =>
    (indentRepeat (level - 1) ++ (if level = 1 then "-" else "*") ++
        " [" ++ t ++ "](#" ++ slugify t ++ ")") ::
      (generateTableOfContents (level + 1) subs ++ generateTableOfContents level rest)

mutual

/-- `generateSectionContent`: optional header at the tree depth, optional
source-URL citation, trimmed content, then subsections one level deeper. -/
def generateSectionContent (options : LlmsTxtOptions) (level : Nat) :
    LlmsTxtSection → List String
  | .mk t c u subs =>
    (if options.sectionHeaders then [charRepeat '#' level ++ " " ++ t, ""] else []) ++
    (if options.includeSourceUrls ∧ u ≠ "" then
        ["*Source: [" ++ u ++ "](" ++ u ++ ")*", ""] else []) ++
    (if trimChars c.data ≠ [] then [ofChars (trimChars c.data), ""] else []) ++
    sectionChildren options level subs

def sectionChildren (options : LlmsTxtOptions) (level : Nat) :
    List LlmsTxtSection → List String
  | [] => []
  | s :: rest =>
    generateSectionContent options (level + 1) s ++ sectionChildren options level rest

end

/-- The `Source:` header line: the hostname when `baseUrl` parses, the raw
string otherwise. -/
def sourceLine (baseUrl : String) : String :=
  match hostnameChars baseUrl.data with
  | some h => "Source: " ++ ofChars h
  | none => "Source: " ++ baseUrl

def sectionBlocks (options : LlmsTxtOptions) : List LlmsTxtSection → List String
  | [] => []
  | s :: rest => (generateSectionContent options 2 s ++ [""]) ++ sectionBlocks options rest

/-- The lines pushed before the `Generated:` line. -/
def genHeadLines (baseUrl : Option String) : List String :=
  ["# Documentation", ""] ++
  (match baseUrl with
    | some b => [sourceLine b]
    | none => [])

/-- The lines pushed after the `Generated:` line. -/
def genTailLines (sections : List LlmsTxtSection) (options : LlmsTxtOptions) :
    List String :=
  ["Format: " ++ options.format.render,
   "Sections: " ++ toString sections.length,
   "", "---", ""] ++
  (if 1 < sections.length ∧ options.sectionHeaders then
      ["## Table of Contents", ""] ++ generateTableOfContents 1 sections ++
        ["", "---", ""]
    else []) ++
  sectionBlocks options sections ++
  ["---", "", "*This documentation was generated automatically from web content.*"] ++
  (if options.includeSourceUrls then
      ["*Source URLs are preserved for reference and verification.*"] else [])

def generateLines (sections : List LlmsTxtSection) (options : LlmsTxtOptions)
    (baseUrl : Option String) (now : String) : List String :=
  genHeadLines baseUrl ++ ("Generated: " ++ now) :: genTailLines sections options

/-- `generateLlmsTxtContent` with the `new Date().toISOString()` timestamp
as the explicit `now` parameter. -/
def generateLlmsTxtContent (sections : List LlmsTxtSection)
    (options : LlmsTxtOptions) (baseUrl : Option String) (now : String) : String :=
  joinLines (generateLines sections options baseUrl now)

/-- `result.success && result.content` — the filter of `formatToLlmsTxt`. -/
def isSuccessfulResult (r : CrawlResult) : Bool :=
  r.success && decide (r.content ≠ "")

/-- `formatToLlmsTxt`.  The thrown `Error` is an `Except.error`; both
`new Date()` calls of one run are the `now` parameter. -/
def formatToLlmsTxt (results : List CrawlResult) (options : LlmsTxtOptions)
    (now : String) : Except String GeneratedLlmsTxt :=
  let successfulResults := results.filter isSuccessfulResult
  if successfulResults.isEmpty then
    Except.error "No successful crawl results to format"
  else
    let hierarchy := buildDocumentHierarchy successfulResults
    let sections := convertToSections hierarchy options
    let content := generateLlmsTxtContent sections options
      ((successfulResults.head?).map (fun r => r.url)) now
    Except.ok
      { content := content
        sections := sections
        metadata :=
          { generatedAt := now
            sourceCount := successfulResults.length
            totalLength := content.length
            format := options.format } }

/-- The option filling of `formatToSummary` (`?? false` / `?? false` /
`?? 300`) before it delegates to `formatToLlmsTxt`. -/
structure PartialLlmsTxtOptions where
  includeSourceUrls : Option Bool
  sectionHeaders : Option Bool
  maxSectionLength : Option Nat

def summaryOptionsOf (o : PartialLlmsTxtOptions) : LlmsTxtOptions :=
  { format := FormatMode.summary
    includeSourceUrls := o.includeSourceUrls.getD false
    sectionHeaders := o.sectionHeaders.getD false
    maxSectionLength := some (o.maxSectionLength.getD 300) }

def formatToSummary (results : List CrawlResult) (o : PartialLlmsTxtOptions)
    (now : String) : Except String GeneratedLlmsTxt :=
  formatToLlmsTxt results (summaryOptionsOf o) now

/-! ## `contentExtractor.ts`: validity check and title extraction -/

structure ExtractedContent where
  title : String
  content : String
  markdown : String
  url : String
deriving DecidableEq

/-- A spam-indicator pattern: literal words separated by `\s*`.  Matching is
case-insensitive (`/i`); the tokens never start with whitespace, so greedily
consuming the separating whitespace run is exact. -/
def matchTokensAt : List (List Char) → List Char → Bool
  | [], _ => true
  | t :: ts, s =>
    t.isPrefixOf s &&
      matchTokensAt ts ((s.drop t.length).dropWhile Char.isWhitespace)

def patternTest (tokens : List (List Char)) (s : String) : Bool :=
  (s.data.map Char.toLower).tails.any (fun t => matchTokensAt tokens t)

/-- The five `spamIndicators` of `isValidContent` (each `\s*` becomes a token
break). -/
def spamIndicators : List (List (List Char)) :=
  [["error".data, "404".data],
   ["page".data, "not".data, "found".data],
   ["access".data, "denied".data],
   ["forbidden".data],
   ["under".data, "construction".data]]

/-- `isValidContent`: too-short content fails; content or title matching a
spam indicator fails; the missing-title case only logs. -/
def isValidContent (c : ExtractedContent) : Bool :=
  if c.content.length < 50 then false
  else if spamIndicators.any (fun p => patternTest p c.content || patternTest p c.title) then
    false
  else true

/-- `replace(/\b\w/g, l => l.toUpperCase())`: uppercase each word character
at a word boundary. -/
def titleCaseGo (prevWord : Bool) : List Char → List Char
  | [] => []
  | c :: rest =>
    (if isWordChar c ∧ ¬prevWord then c.toUpper else c) ::
      titleCaseGo (isWordChar c) rest

def titleCase (l : List Char) : List Char := titleCaseGo false l

/-- `replace(/\.html?$/, '')`. -/
def stripHtmlSuffix (l : List Char) : List Char :=
  if ("html".data.reverse ++ ['.']).isPrefixOf l.reverse then l.dropLast.dropLast.dropLast.dropLast.dropLast
  else if ("htm".data.reverse ++ ['.']).isPrefixOf l.reverse then l.dropLast.dropLast.dropLast.dropLast
  else l

/-- `replace(/[-_]/g, ' ')`. -/
def dashesToSpaces (l : List Char) : List Char :=
  l.map (fun c => if c = '-' ∨ c = '_' then ' ' else c)

/-- `replace(/^www\./, '')`. -/
def stripWww (l : List Char) : List Char :=
  if "www.".data.isPrefixOf l then l.drop 4 else l

/-- `extractTitleFromUrl`: title-case the last meaningful path segment, fall
back to the second-to-last segment, the hostname, or `'Unknown Page'` for a
malformed URL. -/
def extractTitleFromUrl (url : String) : String :=
  match pathnameChars url.data, hostnameChars url.data with
  | some p, some host =>
    let segments := rawSegmentsOf p
    match segments.getLast? with
    | some lastSegment =>
      if lastSegment ≠ "index".data ∧ lastSegment ≠ "index.html".data then
        ofChars (titleCase (stripHtmlSuffix (dashesToSpaces lastSegment)))
      else if 1 < segments.length then
        ofChars (titleCase (dashesToSpaces (segments.getD (segments.length - 2) [])))
      else ofChars (stripWww host)
    | none => ofChars (stripWww host)
  | _, _ => "Unknown Page"

/-- The selector cascade of `extractTitle`, with the DOM abstracted as the
ordered list of trimmed candidate texts the selectors produce: the first
non-empty candidate shorter than 200 characters wins; otherwise the title is
derived from the `base`-href URL, defaulting to `'Untitled Page'`. -/
def firstCascadeTitle : List String → Option String
  | [] => none
  | c :: rest =>
    let t := ofChars (trimChars c.data)
    if t ≠ "" ∧ t.length < 200 then some t else firstCascadeTitle rest

def extractTitle (candidates : List String) (baseHref : String) : String :=
  match firstCascadeTitle candidates with
  | some t => t
  | none =>
    let urlTitle := extractTitleFromUrl baseHref
    if urlTitle = "" then "Untitled Page" else urlTitle

/-! ## Platform detector service

The five fixed platform profiles, URL-pattern detection, markup-signature
detection (with the cheerio queries abstracted to the exact boolean/string
signals the source reads), and heuristic scoring. -/

inductive PlatformName where
  | gitbook
  | docusaurus
  | vuepress
  | mintlify
  | generic
deriving DecidableEq

structure DocumentationPlatform where
  name : String
  confidence : ℚ
  contentSelector : String
  navigationSelector : String
  titleSelector : String
  sidebarSelector : String
  hasSitemap : Bool
  hasNavigation : Bool
  isStaticSite : Bool
deriving DecidableEq

/-- `PLATFORM_CONFIGS`. -/
def getPlatformConfig : PlatformName → DocumentationPlatform
  | .gitbook =>
    { name := "gitbook", confidence := 0.95
      contentSelector := ".page-inner, .markdown-section, [data-testid=\"content\"]"
      navigationSelector := ".book-summary, .navigation, [data-testid=\"sidebar\"]"
      titleSelector := "h1, .page-title, [data-testid=\"page-title\"]"
      sidebarSelector := ".book-summary ul, .sidebar-nav"
      hasSitemap := true, hasNavigation := true, isStaticSite := false }
  | .docusaurus =>
    { name := "docusaurus", confidence := 0.90
      contentSelector := ".docMainContainer, .markdown, main[role=\"main\"]"
      navigationSelector := ".navbar, .menu, .sidebar"
      titleSelector := "h1, .docTitle, header h1"
      sidebarSelector := ".menu__list, .sidebar .menu"
      hasSitemap := true, hasNavigation := true, isStaticSite := true }
  | .vuepress =>
    { name := "vuepress", confidence := 0.85
      contentSelector := ".page, .content, .theme-default-content"
      navigationSelector := ".navbar, .nav-links, .sidebar"
      titleSelector := "h1, .page-title"
      sidebarSelector := ".sidebar-links, .sidebar .sidebar-links"
      hasSitemap := true, hasNavigation := true, isStaticSite := true }
  | .mintlify =>
    { name := "mintlify", confidence := 0.80
      contentSelector := ".docs-content, .markdown, main"
      navigationSelector := ".sidebar, .nav, .navigation-menu"
      titleSelector := "h1, .docs-title"
      sidebarSelector := ".sidebar-content, .navigation-menu"
      hasSitemap := true, hasNavigation := true, isStaticSite := true }
  | .generic =>
    { name := "generic", confidence := 0.50
      contentSelector := "main, .content, #content, .main-content, article, .post-content"
      navigationSelector := "nav, .nav, .navigation, .menu, .sidebar"
      titleSelector := "h1, title, .title, .page-title"
      sidebarSelector := ".sidebar, .nav, .menu"
      hasSitemap := false, hasNavigation := true, isStaticSite := true }

/-- A URL regular expression of `detectFromUrl`, built from literal runs
(dots escaped in the source), `.*` gaps and `[^.]+` runs.  In every source
pattern `[^.]+` is followed by a literal starting with `.`, so consuming the
maximal dot-free run is exactly the backtracking semantics. -/
inductive RTok where
  | lit (s : List Char)
  | anyStar
  | nonDotPlus

def rmatch : List RTok → List Char → Bool
  | [], _ => true
  | .lit t :: ts, s => t.isPrefixOf s && rmatch ts (s.drop t.length)
  | .nonDotPlus :: ts, s =>
    let run := s.takeWhile (fun c => c ≠ '.')
    decide (1 ≤ run.length) && rmatch ts (s.drop run.length)
  | .anyStar :: ts, s => s.tails.any (fun suf => rmatch ts suf)

/-- `RegExp.prototype.test`: an unanchored match anywhere. -/
def rtest (p : List RTok) (s : String) : Bool :=
  s.data.tails.any (fun t => rmatch p t)

def gitbookUrlPatterns : List (List RTok) :=
  [[.lit ".gitbook.".data], [.lit "gitbook.com".data],
   [.lit "gitbook.io".data], [.lit "app.gitbook.com".data]]

def docusaurusUrlPatterns : List (List RTok) :=
  [[.lit "docusaurus".data],
   [.lit ".netlify.app".data, .anyStar, .lit "docs".data],
   [.lit ".vercel.app".data, .anyStar, .lit "docs".data],
   [.lit "github.io".data, .anyStar, .lit "docs".data]]

def vuepressUrlPatterns : List (List RTok) :=
  [[.lit "vuepress".data], [.lit ".vuepress".data]]

def mintlifyUrlPatterns : List (List RTok) :=
  [[.lit "mintlify".data],
   [.lit "docs.".data, .nonDotPlus, .lit ".com".data],
   [.nonDotPlus, .lit ".mintlify.".data]]

/-- `detectFromUrl`: first matching platform in declaration order wins. -/
def detectFromUrl (url : String) : PlatformName :=
  if gitbookUrlPatterns.any (fun p => rtest p url) then .gitbook
  else if docusaurusUrlPatterns.any (fun p => rtest p url) then .docusaurus
  else if vuepressUrlPatterns.any (fun p => rtest p url) then .vuepress
  else if mintlifyUrlPatterns.any (fun p => rtest p url) then .mintlify
  else .generic

/-- The DOM facts `detectFromContent` and `detectFromHeuristics` query from
the supplied markup, abstracted from the cheerio calls of the source. -/
structure Markup where
  hasGitbookRoot : Bool
  hasSidebarTestId : Bool
  hasBookSummary : Bool
  generatorGitbook : Bool
  hasDocusaurusClass : Bool
  hasDataTheme : Bool
  hasNavbarBrand : Bool
  generatorDocusaurus : Bool
  scriptTextHasDocusaurus : Bool
  hasThemeDefaultContent : Bool
  hasSidebarLinks : Bool
  generatorVuepress : Bool
  scriptTextHasVuepress : Bool
  hasMintlifyClass : Bool
  hasDocsContent : Bool
  generatorMintlify : Bool
  classesJoined : String
  pageText : String
  hasReactScriptSrc : Bool
  hasVueScriptSrc : Bool
deriving DecidableEq

/-- `detectFromContent`: first signature block that fires wins. -/
def detectFromContent (m : Markup) : PlatformName :=
  if m.hasGitbookRoot || m.hasSidebarTestId || m.hasBookSummary || m.generatorGitbook then
    .gitbook
  else if m.hasDocusaurusClass || m.hasDataTheme || m.hasNavbarBrand ||
      m.generatorDocusaurus || m.scriptTextHasDocusaurus then
    .docusaurus
  else if m.hasThemeDefaultContent || m.hasSidebarLinks || m.generatorVuepress ||
      m.scriptTextHasVuepress then
    .vuepress
  else if m.hasMintlifyClass || m.hasDocsContent || m.generatorMintlify then
    .mintlify
  else .generic

/-- The accumulated heuristic score of one platform (`detectFromHeuristics`):
URL substrings, framework CSS classes, navigation structure hints, and
React/Vue indicators; `generic` never scores. -/
def heurScore (url : String) (html : Option Markup) : PlatformName → Nat
  | .gitbook =>
    (if containsSub url.data ".gitbook.".data then 3 else 0) +
    (match html with
      | none => 0
      | some m =>
        (if containsSub m.classesJoined.data "gitbook".data then 5 else 0) +
        (if m.hasBookSummary then 3 else 0))
  | .docusaurus =>
    (if containsSub url.data "/docs/".data then 2 else 0) +
    (match html with
      | none => 0
      | some m =>
        (if containsSub m.classesJoined.data "docusaurus".data then 5 else 0) +
        (if m.hasNavbarBrand then 3 else 0) +
        (if containsSub m.pageText.data "React".data || m.hasReactScriptSrc then 2 else 0))
  | .vuepress =>
    (if containsSub url.data "/guide/".data then 2 else 0) +
    (match html with
      | none => 0
      | some m =>
        (if containsSub m.classesJoined.data "vuepress".data then 5 else 0) +
        (if m.hasSidebarLinks then 3 else 0) +
        (if containsSub m.pageText.data "Vue".data || m.hasVueScriptSrc then 2 else 0))
  | .mintlify =>
    (if containsSub url.data "mintlify".data then 3 else 0) +
    (match html with
      | none => 0
      | some m =>
        (if containsSub m.classesJoined.data "mintlify".data then 5 else 0) +
        (if m.hasDocsContent then 3 else 0))
  | .generic => 0

/-- `Object.entries(scores).reduce((a, b) => scores[a] > scores[b] ? a : b)`:
left fold over the declaration order, a tie keeps the later entry. -/
def topPlatform (f : PlatformName → Nat) : PlatformName :=
  [PlatformName.docusaurus, .vuepress, .mintlify, .generic].foldl
    (fun a b => if f b < f a then a else b) .gitbook

/-- `detectFromHeuristics`: the top-scoring platform, only when its score
reaches the threshold 3. -/
def detectFromHeuristics (url : String) (html : Option Markup) : PlatformName :=
  let t := topPlatform (heurScore url html)
  if 3 ≤ heurScore url html t then t else .generic

/-- `detectPlatform`: URL tier, then markup-signature tier (only when markup
was supplied), then heuristics. -/
def detectPlatform (url : String) (htmlContent : Option Markup) :
    DocumentationPlatform :=
  let urlPlatform := detectFromUrl url
  if urlPlatform ≠ .generic then getPlatformConfig urlPlatform
  else
    match htmlContent with
    | some m =>
      let contentPlatform := detectFromContent m
      if contentPlatform ≠ .generic then getPlatformConfig contentPlatform
      else getPlatformConfig (detectFromHeuristics url htmlContent)
    | none => getPlatformConfig (detectFromHeuristics url htmlContent)

/-! ## Derived predicates and concrete inputs used by the verification -/

/-- The parent-child relation actually recorded by the second pass of
`buildDocumentHierarchy` (one pair per `parent.children.push(docNode)`). -/
def childRel (results : List CrawlResult) (p c : DocNode) : Prop :=
  (p, c) ∈ pass2Edges results

mutual

/-- Along every materialized tree, each child's `level` strictly exceeds its
parent's. -/
def levelsStrictTree : DocumentHierarchy → Bool
  | .mk _ _ _ l ch => levelsStrictForest l ch

def levelsStrictForest (l : Nat) : List DocumentHierarchy → Bool
  | [] => true
  | c :: cs =>
    (decide (l < c.level) && levelsStrictTree c) && levelsStrictForest l cs

end

/-- Stated from the claim's words (scenario C of the spec), for comparison
with `truncateContent`: the output is a prefix of the content cut at a word
boundary — the cut does not fall inside a word — followed by an ellipsis. -/
def specCutAtWordBoundary (content out : String) : Bool :=
  (List.range (content.length + 1)).any (fun k =>
    decide (out.data = content.data.take k ++ "...".data) &&
      (decide (content.length ≤ k) ||
        !(isWordChar (content.data.getD (k - 1) ' ') &&
          isWordChar (content.data.getD k ' '))))

/-- The default options object of `formatToLlmsTxt`'s signature
(`format: 'full', includeSourceUrls: true, sectionHeaders: true`,
`maxSectionLength` absent). -/
def fullDefaultOptions : LlmsTxtOptions :=
  { format := FormatMode.full
    includeSourceUrls := true
    sectionHeaders := true
    maxSectionLength := none }

/-- Scenario A of the spec: the `/docs/` and `/docs/guide/setup`
documents. -/
def scenarioADoc1 : CrawlResult :=
  { success := true
    url := "https://example.com/docs/"
    title := "Docs"
    content := "Documentation home page content" }

def scenarioADoc2 : CrawlResult :=
  { success := true
    url := "https://example.com/docs/guide/setup"
    title := "Setup"
    content := "Setup guide content" }

/-- A successful, titled record and a successful record whose title is
missing (claim C10). -/
def titledResult : CrawlResult :=
  { success := true
    url := "https://example.com/docs/"
    title := "Docs"
    content := "Documentation home page content here" }

def untitledResult : CrawlResult :=
  { success := true
    url := "https://example.com/docs/extra"
    title := ""
    content := "Some successful content without a title" }

/-- A URL whose last path segment is 250 characters long (claim C8). -/
def longSegmentUrl : String :=
  "https://example.com/" ++ ofChars (List.replicate 250 'a')

/-- 1100 characters of content (claim C9). -/
def longFullContent : String := ofChars (List.replicate 1100 'x')

/-- The rendered text of a pipeline outcome (the error message for the
error case). -/
def bundleContentOf : Except String GeneratedLlmsTxt → String
  | .ok b => b.content
  | .error e => e

/-- `metadata.sourceCount` / section count of a pipeline outcome (0 for the
error case). -/
def bundleSourceCount : Except String GeneratedLlmsTxt → Nat
  | .ok b => b.metadata.sourceCount
  | .error _ => 0

def bundleSectionCount : Except String GeneratedLlmsTxt → Nat
  | .ok b => b.sections.length
  | .error _ => 0

/-! ## Helper lemmas -/

theorem lastIndexOfSpace_lt_length {l : List Char} {i : Nat}
    (h : lastIndexOfSpace l = some i) : i < l.length := by
  induction l generalizing i with
  | nil => simp [lastIndexOfSpace] at h
  | cons c rest ih =>
    simp only [lastIndexOfSpace] at h
    cases hr : lastIndexOfSpace rest with
    | some j =>
      rw [hr] at h
      cases h
      simpa using Nat.succ_lt_succ (ih hr)
    | none =>
      rw [hr] at h
      by_cases hc : c = ' '
      · simp [hc] at h
        simp only [List.length_cons]
        omega
      · simp [hc] at h

theorem lastIndexOfSpace_getElem {l : List Char} {i : Nat}
    (h : lastIndexOfSpace l = some i) : l[i]? = some ' ' := by
  induction l generalizing i with
  | nil => simp [lastIndexOfSpace] at h
  | cons c rest ih =>
    simp only [lastIndexOfSpace] at h
    cases hr : lastIndexOfSpace rest with
    | some j =>
      rw [hr] at h
      cases h
      simpa using ih hr
    | none =>
      rw [hr] at h
      by_cases hc : c = ' '
      · simp [hc] at h
        simp [← h, hc]
      · simp [hc] at h

theorem ofChars_length (l : List Char) : (ofChars l).length = l.length := rfl

/-! ## Claim C2: `truncateContent` -/

/-- C2 (amended): in full mode, for `3 ≤ maxSectionLength < content.length`,
`truncateContent` returns at most `maxSectionLength` characters ending in an
ellipsis; it cuts at the last word boundary of `substring(0, maxLength - 3)`
only when that boundary's index exceeds `0.8 · maxSectionLength` (in which
case the cut character really is a space of the content); for
`maxSectionLength = 10` and `"Hello there friend"` the boundary (index 5)
fails that test, so the result is the hard character cut `"Hello t..."` —
not a cut at a word boundary. -/
theorem claimC2_amended (content : String) (maxLength : Nat)
    (h3 : 3 ≤ maxLength) (hlong : maxLength < content.length) :
    (truncateContent content maxLength).length ≤ maxLength ∧
    (∃ pre, (truncateContent content maxLength).data = pre ++ "...".data) ∧
    (∀ i, lastIndexOfSpace (content.data.take (maxLength - 3)) = some i →
      4 * maxLength < 5 * i →
      truncateContent content maxLength = ofChars (content.data.take i ++ "...".data) ∧
        content.data[i]? = some ' ') ∧
    truncateContent "Hello there friend" 10 = "Hello t..." := by
  have hnot : ¬ content.length ≤ maxLength := by omega
  have htlen : (content.data.take (maxLength - 3)).length = maxLength - 3 := by
    rw [List.length_take]
    have : content.length = content.data.length := rfl
    omega
  refine ⟨?_, ?_, ?_, by decide⟩
  · rw [truncateContent]
    simp only [hnot, if_false]
    split
    next i heq =>
      have hi := lastIndexOfSpace_lt_length heq
      rw [htlen] at hi
      by_cases hcut : 4 * maxLength < 5 * i
      · rw [if_pos hcut, ofChars_length, List.length_append]
        have h1 : (List.take i (List.take (maxLength - 3) content.data)).length ≤ i :=
          List.length_take_le i _
        simp only [List.length_cons, List.length_nil]
        omega
      · rw [if_neg hcut, ofChars_length, List.length_append, htlen]
        simp only [List.length_cons, List.length_nil]
        omega
    next heq =>
      rw [ofChars_length, List.length_append, htlen]
      simp only [List.length_cons, List.length_nil]
      omega
  · rw [truncateContent]
    simp only [hnot, if_false]
    split
    next i heq =>
      by_cases hcut : 4 * maxLength < 5 * i
      · rw [if_pos hcut]
        exact ⟨_, rfl⟩
      · rw [if_neg hcut]
        exact ⟨_, rfl⟩
    next heq => exact ⟨_, rfl⟩
  · intro i hls hcut
    have hi := lastIndexOfSpace_lt_length hls
    rw [htlen] at hi
    constructor
    · rw [truncateContent]
      simp only [hnot, if_false]
      split
      next j heq =>
        rw [hls] at heq
        cases heq
        rw [if_pos hcut, List.take_take, Nat.min_eq_left (by omega : i ≤ maxLength - 3)]
      next heq =>
        rw [hls] at heq
        cases heq
    · have hg := lastIndexOfSpace_getElem hls
      rwa [List.getElem?_take_of_lt (by omega : i < maxLength - 3)] at hg

/-- C2 witness: the truncation bound at a concrete input (hypotheses
discharged at `maxSectionLength = 30`). -/
theorem claimC2_witness :
    (truncateContent "abcdefghijklmnopqrstuvwxyz more words here" 30).length ≤ 30 :=
  (claimC2_amended "abcdefghijklmnopqrstuvwxyz more words here" 30
    (by decide) (by decide)).1

/-- C2 counterexample: for `maxSectionLength = 10` and
`"Hello there friend"` the output is the hard cut `"Hello t..."`, which is
not cut at a word boundary as the claim's scenario asserts; moreover for
`maxSectionLength = 2` the output `"..."` already exceeds the limit, so the
claimed length bound also fails below 3. -/
theorem claimC2_counterexample :
    truncateContent "Hello there friend" 10 = "Hello t..." ∧
    specCutAtWordBoundary "Hello there friend"
      (truncateContent "Hello there friend" 10) = false ∧
    (truncateContent "abcd" 2).length = 3 := by
  refine ⟨by decide, by decide, by decide⟩

/-! ## Claim C4: `isValidContent` -/

/-- C4 (confirmed): `isValidContent` returns false whenever the plain-text
content is missing or shorter than 50 characters (a missing content is the
empty string, of length 0), and whenever the content or the title matches
one of the five fixed error/spam indicator patterns; in particular a
document whose plain text is `"Page Not Found — 404"` is judged invalid. -/
theorem claimC4 :
    (∀ c : ExtractedContent, c.content.length < 50 → isValidContent c = false) ∧
    (∀ c : ExtractedContent,
      spamIndicators.any
        (fun p => patternTest p c.content || patternTest p c.title) = true →
      isValidContent c = false) ∧
    isValidContent
      { title := "Error", content := "Page Not Found — 404",
        markdown := "", url := "" } = false := by
  refine ⟨?_, ?_, by decide⟩
  · intro c h
    rw [isValidContent, if_pos h]
  · intro c h
    rw [isValidContent]
    by_cases hlen : c.content.length < 50
    · rw [if_pos hlen]
    · rw [if_neg hlen, if_pos h]

/-! ## Claim C5: scenario A -/

/-- C5 counterexample: for the two-document batch with paths `/docs/` and
`/docs/guide/setup`, the built forest has two roots — not one root with one
child — because `determineDocumentLevel` classifies the `setup` segment as a
level-1 getting-started keyword, and no `parent.children.push` happens. -/
theorem claimC5_counterexample :
    ¬((buildDocumentHierarchy [scenarioADoc1, scenarioADoc2]).length = 1) ∧
    determineDocumentLevel scenarioADoc2.url ≠ 3 := by
  refine ⟨by decide, by decide⟩

/-- C5 (amended): both documents of scenario A are assigned level 1 (the
`setup` path segment is in the getting-started keyword list), so the forest
has two roots, no parent/child edge, and the `/docs/guide/setup` document
sorts first (its URL contains `setup`, priority 3, against priority 10). -/
theorem claimC5_amended :
    determineDocumentLevel scenarioADoc1.url = 1 ∧
    determineDocumentLevel scenarioADoc2.url = 1 ∧
    (buildDocumentHierarchy [scenarioADoc1, scenarioADoc2]).length = 2 ∧
    pass2Edges [scenarioADoc1, scenarioADoc2] = [] ∧
    (buildDocumentHierarchy [scenarioADoc1, scenarioADoc2]).map
      DocumentHierarchy.url = [scenarioADoc2.url, scenarioADoc1.url] := by
  refine ⟨by decide, by decide, by decide, by decide, by decide⟩

/-! ## Claim C8: title lengths -/

theorem firstCascadeTitle_lt {candidates : List String} {t : String}
    (h : firstCascadeTitle candidates = some t) : t.length < 200 := by
  induction candidates with
  | nil => simp [firstCascadeTitle] at h
  | cons c rest ih =>
    rw [firstCascadeTitle] at h
    split at h
    · rename_i hc
      cases h
      exact hc.2
    · exact ih h

/-- C8 (amended): titles accepted by the selector cascade are shorter than
200 characters and sanitized hierarchy titles are at most 200 characters,
but a title derived from a URL path segment is not length-limited — the
fallback branch returns `extractTitleFromUrl` unchanged (or the 13-character
`'Untitled Page'`), and that value can exceed 200 characters. -/
theorem claimC8_amended :
    (∀ title : String, (sanitizeTitle title).length ≤ 200) ∧
    (∀ (candidates : List String) (baseHref : String),
      (extractTitle candidates baseHref).length ≤ 200 ∨
        extractTitle candidates baseHref = extractTitleFromUrl baseHref) := by
  constructor
  · intro title
    rw [sanitizeTitle, ofChars_length]
    exact List.length_take_le 200 _
  · intro candidates baseHref
    rw [extractTitle]
    cases h : firstCascadeTitle candidates with
    | some t =>
      left
      exact Nat.le_of_lt (firstCascadeTitle_lt h)
    | none =>
      by_cases hu : extractTitleFromUrl baseHref = ""
      · left
        rw [if_pos hu]
        show ("Untitled Page" : String).length ≤ 200
        decide
      · right
        rw [if_neg hu]

set_option maxRecDepth 4000 in
/-- C8 counterexample: a URL whose last path segment is 250 characters long
makes the pipeline's URL-derived fallback title 250 characters long,
exceeding the claimed 200-character bound. -/
theorem claimC8_counterexample :
    200 < (extractTitle [] longSegmentUrl).length ∧
    (extractTitleFromUrl longSegmentUrl).length = 250 := by
  refine ⟨by decide, by decide⟩

/-! ## Claim C9: default `maxSectionLength` -/

/-- C9 (amended): when `maxSectionLength` is not supplied,
`convertDocumentToSection` summarizes with a default of 500 in summary mode
and applies no length limit at all in full mode; the 300-character default
exists only in the `formatToSummary` wrapper, which fills
`maxSectionLength ?? 300` before delegating. -/
theorem claimC9_amended :
    (∀ (content : String) (options : LlmsTxtOptions),
      options.format = FormatMode.full → options.maxSectionLength = none →
      processContent content options = content) ∧
    (∀ (content : String) (options : LlmsTxtOptions),
      options.format = FormatMode.summary → options.maxSectionLength = none →
      processContent content options = createSummaryContent content 500) ∧
    (∀ o : PartialLlmsTxtOptions, o.maxSectionLength = none →
      (summaryOptionsOf o).maxSectionLength = some 300) := by
  refine ⟨?_, ?_, ?_⟩
  · intro content options hf hm
    rw [processContent, if_neg (by rw [hf]; decide), hm]
  · intro content options hf hm
    rw [processContent, if_pos hf, hm]
  · intro o hm
    rw [summaryOptionsOf, hm]
    rfl

set_option maxRecDepth 20000 in
/-- C9 counterexample: in full mode with `maxSectionLength` absent, an
1100-character content passes through untruncated (no 1000-character
default); in summary mode with the option absent the summary limit is 500,
not 300 (the 1100-`x` content yields a 500-character summary). -/
theorem claimC9_counterexample :
    (processContent longFullContent fullDefaultOptions).length = 1100 ∧
    (processContent longFullContent
      { format := FormatMode.summary, includeSourceUrls := false,
        sectionHeaders := false, maxSectionLength := none }).length = 500 := by
  refine ⟨by decide, by decide⟩

/-! ## Claim C1: the "no content to format" abort -/

/-- C1 (confirmed): `formatToLlmsTxt` fails with the explicit
`'No successful crawl results to format'` error exactly when filtering the
batch down to results with `success` and non-empty `content` leaves nothing;
that message is the only error the pipeline can produce, and whenever the
filtered batch is non-empty a bundle is returned. -/
theorem claimC1 :
    ∀ (results : List CrawlResult) (options : LlmsTxtOptions) (now : String),
      (formatToLlmsTxt results options now =
          Except.error "No successful crawl results to format" ↔
        results.filter isSuccessfulResult = []) ∧
      (∀ e, formatToLlmsTxt results options now = Except.error e →
        e = "No successful crawl results to format") ∧
      (results.filter isSuccessfulResult ≠ [] →
        ∃ b, formatToLlmsTxt results options now = Except.ok b) := by
  intro results options now
  by_cases h : results.filter isSuccessfulResult = []
  · have hEmpty : (results.filter isSuccessfulResult).isEmpty = true := by
      rw [h]
      rfl
    rw [formatToLlmsTxt, if_pos hEmpty]
    exact ⟨⟨fun _ => h, fun _ => rfl⟩, fun e he => by cases he; rfl,
      fun hne => absurd h hne⟩
  · have hEmpty : ¬((results.filter isSuccessfulResult).isEmpty = true) := by
      intro hc
      exact h (List.isEmpty_iff.mp hc)
    rw [formatToLlmsTxt, if_neg hEmpty]
    exact ⟨⟨fun hcontra => Except.noConfusion hcontra, fun hnil => absurd hnil h⟩,
      fun e he => Except.noConfusion he, fun _ => ⟨_, rfl⟩⟩

/-! ## Claim C7: platform classification -/

theorem getPlatformConfig_mem (p : PlatformName) :
    getPlatformConfig p ∈
      [getPlatformConfig PlatformName.gitbook, getPlatformConfig PlatformName.docusaurus,
       getPlatformConfig PlatformName.vuepress, getPlatformConfig PlatformName.mintlify,
       getPlatformConfig PlatformName.generic] := by
  cases p <;> simp

/-- C7 (confirmed): `detectPlatform` is total and always returns one of the
five fixed platform profiles; when neither the URL tier nor the
markup-signature tier finds a specific platform, the result is the heuristic
tier's, which names a specific platform only when that platform's
accumulated score is at least 3 and otherwise falls back to the generic
profile. -/
theorem claimC7 :
    (∀ (url : String) (m : Option Markup),
      detectPlatform url m ∈
        [getPlatformConfig PlatformName.gitbook, getPlatformConfig PlatformName.docusaurus,
         getPlatformConfig PlatformName.vuepress, getPlatformConfig PlatformName.mintlify,
         getPlatformConfig PlatformName.generic]) ∧
    (∀ (url : String) (m : Option Markup),
      detectFromUrl url = PlatformName.generic →
      (∀ mk, m = some mk → detectFromContent mk = PlatformName.generic) →
      detectPlatform url m = getPlatformConfig (detectFromHeuristics url m) ∧
      (detectFromHeuristics url m ≠ PlatformName.generic →
        3 ≤ heurScore url m (detectFromHeuristics url m)) ∧
      (heurScore url m (topPlatform (heurScore url m)) < 3 →
        detectFromHeuristics url m = PlatformName.generic)) := by
  have hHeur : ∀ (url : String) (m : Option Markup),
      (detectFromHeuristics url m ≠ PlatformName.generic →
        3 ≤ heurScore url m (detectFromHeuristics url m)) ∧
      (heurScore url m (topPlatform (heurScore url m)) < 3 →
        detectFromHeuristics url m = PlatformName.generic) := by
    intro url m
    constructor
    · intro hne
      rw [detectFromHeuristics] at hne ⊢
      by_cases hscore : 3 ≤ heurScore url m (topPlatform (heurScore url m))
      · rwa [if_pos hscore] at hne ⊢
      · rw [if_neg hscore] at hne
        exact absurd rfl hne
    · intro hlt
      rw [detectFromHeuristics, if_neg (by omega)]
  constructor
  · intro url m
    rw [detectPlatform.eq_def]
    dsimp only
    split_ifs with h1
    · exact getPlatformConfig_mem _
    · split
      · split_ifs with h2
        · exact getPlatformConfig_mem _
        · exact getPlatformConfig_mem _
      · exact getPlatformConfig_mem _
  · intro url m hu hc
    refine ⟨?_, (hHeur url m).1, (hHeur url m).2⟩
    rw [detectPlatform.eq_def, if_neg (by simp [hu])]
    cases m with
    | none => rfl
    | some mk =>
      show (if detectFromContent mk ≠ PlatformName.generic
        then getPlatformConfig (detectFromContent mk)
        else getPlatformConfig (detectFromHeuristics url (some mk))) =
          getPlatformConfig (detectFromHeuristics url (some mk))
      rw [if_neg (by simp [hc mk rfl])]

/-! ## Claim C6: determinism of the rendered bundle -/

theorem joinLines_cons (g : String) (B : List String) (hB : B ≠ []) :
    joinLines (g :: B) = g ++ "\n" ++ joinLines B := by
  cases B with
  | nil => exact absurd rfl hB
  | cons b bs => rfl

theorem string_append_assoc (a b c : String) : a ++ b ++ c = a ++ (b ++ c) :=
  String.ext (by simp [List.append_assoc])

theorem joinLines_append (A B : List String) (hA : A ≠ []) (hB : B ≠ []) :
    joinLines (A ++ B) = joinLines A ++ "\n" ++ joinLines B := by
  induction A with
  | nil => exact absurd rfl hA
  | cons a as ih =>
    cases as with
    | nil => simpa using joinLines_cons a B hB
    | cons a₂ as₂ =>
      have h1 : joinLines ((a :: a₂ :: as₂) ++ B) =
          a ++ "\n" ++ joinLines ((a₂ :: as₂) ++ B) := by
        rw [List.cons_append]
        exact joinLines_cons a _ (by simp)
      rw [h1, ih (by simp), joinLines_cons a (a₂ :: as₂) (by simp)]
      apply String.ext
      simp [List.append_assoc]

theorem genHeadLines_ne_nil (baseUrl : Option String) : genHeadLines baseUrl ≠ [] := by
  rw [genHeadLines.eq_def]
  cases baseUrl <;> simp

theorem genTailLines_ne_nil (sections : List LlmsTxtSection)
    (options : LlmsTxtOptions) : genTailLines sections options ≠ [] := by
  rw [genTailLines]
  simp

/-- The rendered text splits as a timestamp-independent prefix, the
timestamp, and a timestamp-independent suffix. -/
theorem generateLlmsTxtContent_decomp (sections : List LlmsTxtSection)
    (options : LlmsTxtOptions) (baseUrl : Option String) (now : String) :
    generateLlmsTxtContent sections options baseUrl now =
      joinLines (genHeadLines baseUrl) ++ "\nGenerated: " ++ now ++
        ("\n" ++ joinLines (genTailLines sections options)) := by
  rw [generateLlmsTxtContent, generateLines,
    joinLines_append _ _ (genHeadLines_ne_nil baseUrl) (by simp),
    joinLines_cons _ _ (genTailLines_ne_nil sections options)]
  apply String.ext
  simp [List.append_assoc]

theorem generateContent_eq_iff (sections : List LlmsTxtSection)
    (options : LlmsTxtOptions) (baseUrl : Option String) (n₁ n₂ : String) :
    generateLlmsTxtContent sections options baseUrl n₁ =
      generateLlmsTxtContent sections options baseUrl n₂ ↔ n₁ = n₂ := by
  constructor
  · intro h
    rw [generateLlmsTxtContent_decomp, generateLlmsTxtContent_decomp] at h
    have e : ∀ x y : String, (x ++ y).data = x.data ++ y.data := fun _ _ => rfl
    have hd := congrArg String.data h
    simp only [e, List.append_assoc] at hd
    exact String.ext
      (List.append_cancel_right (List.append_cancel_left (List.append_cancel_left hd)))
  · intro h
    rw [h]

/-- C6 (amended): the rendered bundle text is byte-identical across two runs
on an identical batch with identical options exactly when the two runs'
generation timestamps coincide — the text embeds
`new Date().toISOString()` in its `Generated:` line and depends on nothing
else that varies between runs. -/
theorem claimC6_amended :
    (∀ (sections : List LlmsTxtSection) (options : LlmsTxtOptions)
        (baseUrl : Option String) (n₁ n₂ : String),
      generateLlmsTxtContent sections options baseUrl n₁ =
        generateLlmsTxtContent sections options baseUrl n₂ ↔ n₁ = n₂) ∧
    (∀ (results : List CrawlResult) (options : LlmsTxtOptions)
        (n₁ n₂ : String) (b₁ b₂ : GeneratedLlmsTxt),
      formatToLlmsTxt results options n₁ = Except.ok b₁ →
      formatToLlmsTxt results options n₂ = Except.ok b₂ →
      (b₁.content = b₂.content ↔ n₁ = n₂)) := by
  refine ⟨generateContent_eq_iff, ?_⟩
  intro results options n₁ n₂ b₁ b₂ h₁ h₂
  by_cases h : (results.filter isSuccessfulResult).isEmpty = true
  · rw [formatToLlmsTxt, if_pos h] at h₁
    exact Except.noConfusion h₁
  · rw [formatToLlmsTxt, if_neg h] at h₁ h₂
    have e₁ : b₁.content = generateLlmsTxtContent
        (convertToSections (buildDocumentHierarchy (results.filter isSuccessfulResult)) options)
        options (((results.filter isSuccessfulResult).head?).map (fun r => r.url)) n₁ := by
      injection h₁ with h₁'
      rw [← h₁']
    have e₂ : b₂.content = generateLlmsTxtContent
        (convertToSections (buildDocumentHierarchy (results.filter isSuccessfulResult)) options)
        options (((results.filter isSuccessfulResult).head?).map (fun r => r.url)) n₂ := by
      injection h₂ with h₂'
      rw [← h₂']
    rw [e₁, e₂]
    exact generateContent_eq_iff _ _ _ _ _

/-- C6 counterexample: one batch, one options object, two runs with
different generation timestamps — the rendered texts differ, so the claimed
unconditional byte-identity across runs fails. -/
theorem claimC6_counterexample :
    bundleContentOf
        (formatToLlmsTxt [titledResult] fullDefaultOptions "2024-01-01T00:00:00.000Z") ≠
      bundleContentOf
        (formatToLlmsTxt [titledResult] fullDefaultOptions "2025-06-15T12:00:00.000Z") := by
  decide

/-! ## Claim C3: the built structure is a forest -/

theorem mem_mapSet {m : List (String × DocNode)} {k : String} {v : DocNode}
    {kv : String × DocNode} (h : kv ∈ mapSet m k v) : kv ∈ m ∨ kv = (k, v) := by
  rw [mapSet] at h
  split_ifs at h
  · obtain ⟨p, hp, he⟩ := List.mem_map.mp h
    by_cases hpk : p.1 = k
    · right
      rw [← he, if_pos hpk]
    · left
      rw [← he, if_neg hpk]
      exact hp
  · rcases List.mem_append.mp h with h' | h'
    · exact Or.inl h'
    · right
      simpa using h'

theorem mem_pass1MapGo {rs : List CrawlResult} :
    ∀ {m : List (String × DocNode)} {kv : String × DocNode},
      kv ∈ pass1MapGo m rs →
      kv ∈ m ∨ ∃ r ∈ rs, kv = (r.url, mkNode r) ∧ hasContentAndTitle r = true := by
  induction rs with
  | nil =>
    intro m kv h
    exact Or.inl h
  | cons r rest ih =>
    intro m kv h
    rw [pass1MapGo] at h
    rcases ih h with hm | ⟨r', hr', he, hc⟩
    · by_cases hc : hasContentAndTitle r = true
      · rw [if_pos hc] at hm
        rcases mem_mapSet hm with h' | h'
        · exact Or.inl h'
        · exact Or.inr ⟨r, by simp, h', hc⟩
      · rw [if_neg hc] at hm
        exact Or.inl hm
    · exact Or.inr ⟨r', by simp [hr'], he, hc⟩

theorem mem_pass1Map {rs : List CrawlResult} {kv : String × DocNode}
    (h : kv ∈ pass1Map rs) :
    ∃ r ∈ rs, kv = (r.url, mkNode r) ∧ hasContentAndTitle r = true := by
  rcases mem_pass1MapGo h with h' | h'
  · simp at h'
  · exact h'

theorem lookupMap_mem {m : List (String × DocNode)} {k : String} {n : DocNode}
    (h : lookupMap m k = some n) : (k, n) ∈ m := by
  rw [lookupMap] at h
  cases hf : m.find? (fun p => p.1 = k) with
  | none =>
    rw [hf] at h
    cases h
  | some p =>
    rw [hf] at h
    have hp : p ∈ m := List.mem_of_find?_eq_some hf
    have hkey : p.1 = k := by simpa using List.find?_some hf
    have hval : p.2 = n := by simpa using h
    obtain ⟨p₁, p₂⟩ := p
    simp only at hkey hval
    rw [← hkey, ← hval]
    exact hp

/-- A node returned by a lookup in the pass-1 map is `mkNode` of some batch
record whose URL is the looked-up key; in particular its `url` field is the
key and its `level` is `determineDocumentLevel` of its URL. -/
theorem lookupMap_pass1 {rs : List CrawlResult} {k : String} {n : DocNode}
    (h : lookupMap (pass1Map rs) k = some n) :
    n.url = k ∧ n.level = determineDocumentLevel n.url ∧
      ∃ r ∈ rs, r.url = k ∧ hasContentAndTitle r = true := by
  obtain ⟨r, hr, he, hc⟩ := mem_pass1Map (lookupMap_mem h)
  have h1 : k = r.url := congrArg Prod.fst he
  have h2 : n = mkNode r := congrArg Prod.snd he
  subst h2
  refine ⟨h1.symm, rfl, r, hr, h1.symm, hc⟩

theorem pickFirstMinGo_mem (d : DocNode) :
    ∀ (l : List DocNode) (b : DocNode), pickFirstMinGo d b l ∈ b :: l := by
  intro l
  induction l with
  | nil =>
    intro b
    simp [pickFirstMinGo]
  | cons n rest ih =>
    intro b
    rw [pickFirstMinGo]
    by_cases hc : betterParent d n b = true
    · rw [if_pos hc]
      rcases List.mem_cons.mp (ih n) with h | h
      · simp [h]
      · simp [h]
    · rw [if_neg hc]
      rcases List.mem_cons.mp (ih b) with h | h
      · simp [h]
      · simp [h]

theorem findBestParent_some {d : DocNode} {ns : List DocNode} {p : DocNode}
    (h : findBestParent d ns = some p) :
    p.level < d.level ∧ p.url ≠ d.url ∧ p ∈ ns := by
  rw [findBestParent] at h
  split at h
  · cases h
  · rename_i heq
    injection h with h'
    have hm : p ∈ ns.filter (fun n =>
        decide (n.level < d.level) && decide (n.url ≠ d.url) &&
          isLikelyParent n.url d.url) := by
      rw [heq, ← h']
      exact pickFirstMinGo_mem d _ _
    have := List.mem_filter.mp hm
    rcases this with ⟨hmem, hpred⟩
    simp only [Bool.and_eq_true, decide_eq_true_eq] at hpred
    exact ⟨hpred.1.1, hpred.1.2, hmem⟩

theorem mem_vals_levelFn {rs : List CrawlResult} {p : DocNode}
    (h : p ∈ (pass1Map rs).map (fun q => q.2)) :
    p.level = determineDocumentLevel p.url := by
  obtain ⟨kv, hkv, he⟩ := List.mem_map.mp h
  obtain ⟨r, _, hkv2, _⟩ := mem_pass1Map hkv
  rw [← he, hkv2]
  rfl

theorem mem_edgeOf {m : List (String × DocNode)} {vals : List DocNode}
    {r : CrawlResult} {p n : DocNode} (h : (p, n) ∈ edgeOf m vals r) :
    lookupMap m r.url = some n ∧ n.level ≠ 1 ∧ findBestParent n vals = some p := by
  rw [edgeOf] at h
  split at h
  · simp at h
  · rename_i n' heq
    split_ifs at h with h1
    · simp at h
    · split at h
      · rename_i p' heq2
        simp only [List.mem_singleton, Prod.mk.injEq] at h
        obtain ⟨rfl, rfl⟩ := h
        exact ⟨heq, h1, heq2⟩
      · simp at h

theorem mem_pass2EdgesGo {m : List (String × DocNode)} {vals : List DocNode} :
    ∀ {rs : List CrawlResult} {e : DocNode × DocNode},
      e ∈ pass2EdgesGo m vals rs → ∃ r ∈ rs, e ∈ edgeOf m vals r := by
  intro rs
  induction rs with
  | nil =>
    intro e h
    simp [pass2EdgesGo] at h
  | cons r rest ih =>
    intro e h
    rw [pass2EdgesGo] at h
    rcases List.mem_append.mp h with h' | h'
    · exact ⟨r, by simp, h'⟩
    · obtain ⟨r', hr', he⟩ := ih h'
      exact ⟨r', by simp [hr'], he⟩

/-- Characterization of every `parent.children.push` the second pass
performs: the child is the map's node at its own URL, the parent is the
deterministic `findBestParent` answer for that child over the map's values,
and the parent's level is strictly lower. -/
theorem pass2Edges_spec {rs : List CrawlResult} {p c : DocNode}
    (h : (p, c) ∈ pass2Edges rs) :
    lookupMap (pass1Map rs) c.url = some c ∧
      findBestParent c ((pass1Map rs).map (fun q => q.2)) = some p ∧
      p.level < c.level ∧
      p.level = determineDocumentLevel p.url ∧
      c.level = determineDocumentLevel c.url := by
  rw [pass2Edges] at h
  obtain ⟨r, _, he⟩ := mem_pass2EdgesGo h
  obtain ⟨hlook, hne1, hbest⟩ := mem_edgeOf he
  obtain ⟨hurl, hlvl, _⟩ := lookupMap_pass1 hlook
  have hlook' : lookupMap (pass1Map rs) c.url = some c := by
    rw [hurl]
    exact hlook
  obtain ⟨hplevel, _, hpmem⟩ := findBestParent_some hbest
  exact ⟨hlook', hbest, hplevel, mem_vals_levelFn hpmem, hlvl⟩

theorem mem_childrenOfUrl {rs : List CrawlResult} {u : String} {c : DocNode}
    (h : c ∈ childrenOfUrl rs u) :
    ∃ p, (p, c) ∈ pass2Edges rs ∧ p.url = u := by
  rw [childrenOfUrl] at h
  obtain ⟨e, he, hf⟩ := List.mem_filterMap.mp h
  obtain ⟨p', c'⟩ := e
  by_cases hu : p'.url = u
  · rw [if_pos hu] at hf
    injection hf with hf'
    have hc' : c' = c := hf'
    exact ⟨p', by rwa [hc'] at he, hu⟩
  · rw [if_neg hu] at hf
    cases hf

theorem buildTreeFuel_level (rs : List CrawlResult) (fuel : Nat) (n : DocNode) :
    (buildTreeFuel rs fuel n).level = n.level := by
  cases fuel <;> rfl

theorem buildTreeFuel_levelsStrict (rs : List CrawlResult) :
    ∀ (fuel : Nat) (n : DocNode), n.level = determineDocumentLevel n.url →
      levelsStrictTree (buildTreeFuel rs fuel n) = true := by
  intro fuel
  induction fuel with
  | zero =>
    intro n _
    rfl
  | succ f ih =>
    intro n hn
    rw [buildTreeFuel, levelsStrictTree]
    have key : ∀ cs : List DocNode, (∀ c ∈ cs, c ∈ childrenOfUrl rs n.url) →
        levelsStrictForest n.level (cs.map (buildTreeFuel rs f)) = true := by
      intro cs
      induction cs with
      | nil =>
        intro _
        rfl
      | cons c cs ih₂ =>
        intro hsub
        rw [List.map_cons, levelsStrictForest]
        obtain ⟨p, hedge, hpu⟩ := mem_childrenOfUrl (hsub c (by simp))
        obtain ⟨_, _, hplt, hplvl, hclvl⟩ := pass2Edges_spec hedge
        have hlt : n.level < c.level := by
          calc n.level = determineDocumentLevel n.url := hn
            _ = determineDocumentLevel p.url := by rw [hpu]
            _ = p.level := hplvl.symm
            _ < c.level := hplt
        simp only [Bool.and_eq_true, decide_eq_true_eq, buildTreeFuel_level]
        exact ⟨⟨hlt, ih c hclvl⟩, ih₂ (fun c' hc' => hsub c' (by simp [hc']))⟩
    exact key _ (fun c hc => hc)

theorem sortTree_level (t : DocumentHierarchy) : (sortTree t).level = t.level := by
  cases t
  rfl

theorem mem_hierInsert {x y : DocumentHierarchy} {l : List DocumentHierarchy}
    (h : y ∈ hierInsert x l) : y = x ∨ y ∈ l := by
  induction l with
  | nil =>
    rw [hierInsert] at h
    simpa using h
  | cons z zs ih =>
    rw [hierInsert] at h
    split_ifs at h with hc
    · rcases List.mem_cons.mp h with h' | h'
      · exact Or.inr (by simp [h'])
      · rcases ih h' with h'' | h''
        · exact Or.inl h''
        · exact Or.inr (by simp [h''])
    · rcases List.mem_cons.mp h with h' | h'
      · exact Or.inl h'
      · exact Or.inr h'

theorem mem_sortForest {t : DocumentHierarchy} :
    ∀ {l : List DocumentHierarchy}, t ∈ sortForest l → ∃ t₀ ∈ l, t = sortTree t₀ := by
  intro l
  induction l with
  | nil =>
    intro h
    rw [sortForest] at h
    cases h
  | cons x xs ih =>
    intro h
    rw [sortForest] at h
    rcases mem_hierInsert h with h' | h'
    · exact ⟨x, by simp, h'⟩
    · obtain ⟨t₀, ht, he⟩ := ih h'
      exact ⟨t₀, by simp [ht], he⟩

theorem hierInsert_levelsStrict (x : DocumentHierarchy) (lvl : Nat) :
    ∀ l : List DocumentHierarchy,
      levelsStrictForest lvl (hierInsert x l) =
        ((decide (lvl < x.level) && levelsStrictTree x) && levelsStrictForest lvl l) := by
  intro l
  induction l with
  | nil => rfl
  | cons z zs ih =>
    rw [hierInsert]
    split_ifs with hc
    · rw [levelsStrictForest, ih, levelsStrictForest]
      cases decide (lvl < x.level) && levelsStrictTree x <;>
        cases decide (lvl < z.level) && levelsStrictTree z <;>
        cases levelsStrictForest lvl zs <;> rfl
    · rfl

mutual

theorem sortTree_levelsStrict :
    ∀ t : DocumentHierarchy, levelsStrictTree (sortTree t) = levelsStrictTree t
  | .mk ttl u c l ch => by
    rw [sortTree, levelsStrictTree, levelsStrictTree]
    exact sortForest_levelsStrict l ch

theorem sortForest_levelsStrict :
    ∀ (lvl : Nat) (cs : List DocumentHierarchy),
      levelsStrictForest lvl (sortForest cs) = levelsStrictForest lvl cs
  | _, [] => rfl
  | lvl, c :: cs => by
    rw [sortForest, hierInsert_levelsStrict, levelsStrictForest,
      sortTree_levelsStrict c, sortForest_levelsStrict lvl cs, sortTree_level]

end

theorem pass1Roots_levelFn {rs : List CrawlResult} {n : DocNode} :
    n ∈ pass1Roots rs → n.level = determineDocumentLevel n.url := by
  induction rs with
  | nil =>
    intro h
    simp [pass1Roots] at h
  | cons r rest ih =>
    intro h
    rw [pass1Roots] at h
    rcases List.mem_append.mp h with h' | h'
    · split_ifs at h' with hc
      · have : n = mkNode r := by simpa using h'
        rw [this]
        rfl
      · simp at h'
    · exact ih h'

theorem mem_rootOf {m : List (String × DocNode)} {vals : List DocNode}
    {r : CrawlResult} {n : DocNode} (h : n ∈ rootOf m vals r) :
    lookupMap m r.url = some n := by
  rw [rootOf] at h
  split at h
  · simp at h
  · rename_i n' heq
    split_ifs at h with h1
    · simp at h
    · split at h
      · simp at h
      · have : n = n' := by simpa using h
        rw [this]
        exact heq

theorem mem_pass2RootsGo {m : List (String × DocNode)} {vals : List DocNode} :
    ∀ {rs : List CrawlResult} {n : DocNode},
      n ∈ pass2RootsGo m vals rs → ∃ r ∈ rs, n ∈ rootOf m vals r := by
  intro rs
  induction rs with
  | nil =>
    intro n h
    simp [pass2RootsGo] at h
  | cons r rest ih =>
    intro n h
    rw [pass2RootsGo] at h
    rcases List.mem_append.mp h with h' | h'
    · exact ⟨r, by simp, h'⟩
    · obtain ⟨r', hr', he⟩ := ih h'
      exact ⟨r', by simp [hr'], he⟩

theorem pass2ExtraRoots_levelFn {rs : List CrawlResult} {n : DocNode}
    (h : n ∈ pass2ExtraRoots rs) : n.level = determineDocumentLevel n.url := by
  rw [pass2ExtraRoots] at h
  obtain ⟨r, _, hroot⟩ := mem_pass2RootsGo h
  obtain ⟨hurl, hlvl, _⟩ := lookupMap_pass1 (mem_rootOf hroot)
  exact hlvl

/-- C3 (confirmed): the structure built by `buildDocumentHierarchy` is a
true forest.  Every `parent.children.push` attachment (recorded in
`pass2Edges`) goes from a strictly lower-level parent to its child; a child
URL is attached under exactly one parent (the attachment is a deterministic
function of the child's map node); the ancestor relation is therefore
level-increasing, so no node is its own ancestor; and along every
materialized tree of the built forest each child's level strictly exceeds
its parent's. -/
theorem claimC3 :
    ∀ results : List CrawlResult,
      (∀ e ∈ pass2Edges results, e.1.level < e.2.level) ∧
      (∀ p₁ c₁ p₂ c₂, (p₁, c₁) ∈ pass2Edges results →
        (p₂, c₂) ∈ pass2Edges results → c₁.url = c₂.url → p₁ = p₂ ∧ c₁ = c₂) ∧
      (∀ a b, Relation.TransGen (childRel results) a b → a.level < b.level) ∧
      (∀ n, ¬ Relation.TransGen (childRel results) n n) ∧
      (∀ t ∈ buildDocumentHierarchy results, levelsStrictTree t = true) := by
  intro results
  have hlvl : ∀ e ∈ pass2Edges results, e.1.level < e.2.level := by
    intro e he
    obtain ⟨p, c⟩ := e
    exact (pass2Edges_spec he).2.2.1
  have htrans : ∀ a b, Relation.TransGen (childRel results) a b →
      a.level < b.level := by
    intro a b h
    induction h with
    | single h' => exact hlvl _ h'
    | tail _ e ih => exact lt_trans ih (hlvl _ e)
  refine ⟨hlvl, ?_, htrans, ?_, ?_⟩
  · intro p₁ c₁ p₂ c₂ h₁ h₂ hurl
    obtain ⟨hl₁, hb₁, _⟩ := pass2Edges_spec h₁
    obtain ⟨hl₂, hb₂, _⟩ := pass2Edges_spec h₂
    rw [hurl] at hl₁
    have hc : c₁ = c₂ := Option.some.inj (hl₁.symm.trans hl₂)
    subst hc
    exact ⟨Option.some.inj (hb₁.symm.trans hb₂), rfl⟩
  · intro n hn
    exact absurd (htrans n n hn) (lt_irrefl _)
  · intro t ht
    rw [buildDocumentHierarchy] at ht
    obtain ⟨t₀, ht₀, he⟩ := mem_sortForest ht
    obtain ⟨n, hn, hne⟩ := List.mem_map.mp ht₀
    have hlvlfn : n.level = determineDocumentLevel n.url := by
      rcases List.mem_append.mp hn with h' | h'
      · exact pass1Roots_levelFn h'
      · exact pass2ExtraRoots_levelFn h'
    rw [he, sortTree_levelsStrict, ← hne]
    exact buildTreeFuel_levelsStrict results 4 n hlvlfn

/-! ## Claim C10: titleless successful records -/

/-- C10 (confirmed): `metadata.sourceCount` counts every record that passes
the `success && content` filter — a missing title does not exclude it — yet
the hierarchy only ever contains nodes made from records with a non-empty
title and non-empty content, so a successful, titled-less record is silently
absent from the forest and the rendered bundle; concretely, a batch with one
titled and one titleless successful record reports `sourceCount = 2` but
renders a single section. -/
theorem claimC10 :
    (∀ (results : List CrawlResult) (options : LlmsTxtOptions) (now : String)
        (b : GeneratedLlmsTxt),
      formatToLlmsTxt results options now = Except.ok b →
      b.metadata.sourceCount = (results.filter isSuccessfulResult).length) ∧
    (∀ (results : List CrawlResult) (k : String) (n : DocNode),
      lookupMap (pass1Map results) k = some n →
      ∃ r ∈ results, r.url = k ∧ r.title ≠ "" ∧ r.content ≠ "") ∧
    bundleSourceCount (formatToLlmsTxt [titledResult, untitledResult]
      fullDefaultOptions "2025-01-01T00:00:00.000Z") = 2 ∧
    bundleSectionCount (formatToLlmsTxt [titledResult, untitledResult]
      fullDefaultOptions "2025-01-01T00:00:00.000Z") = 1 ∧
    (∃ b, formatToLlmsTxt [titledResult, untitledResult] fullDefaultOptions
      "2025-01-01T00:00:00.000Z" = Except.ok b) := by
  refine ⟨?_, ?_, by decide, by decide, ⟨_, rfl⟩⟩
  · intro results options now b h
    by_cases hEmpty : (results.filter isSuccessfulResult).isEmpty = true
    · rw [formatToLlmsTxt, if_pos hEmpty] at h
      exact Except.noConfusion h
    · rw [formatToLlmsTxt, if_neg hEmpty] at h
      injection h with h'
      rw [← h']
  · intro results k n h
    obtain ⟨_, _, r, hr, hurl, hc⟩ := lookupMap_pass1 h
    rw [hasContentAndTitle, Bool.and_eq_true, decide_eq_true_eq,
      decide_eq_true_eq] at hc
    exact ⟨r, hr, hurl, hc.2, hc.1⟩
